import Mathlib

/-!
# Verification of the crates.io package core (`src/package.rs`)

A shallow embedding of the package entity/query layer, the publish saga and
the download redirector of the registry's `package.rs`, together with proofs
settling the frozen claims about it.

Conventions of the embedding:
* Database rows are Lean structures; the relational store is a `Store` of row
  lists in row order.  SQL queries over it are translated into list
  operations that mirror the statement text (`WHERE name = $1` with a first
  row taken becomes `List.find?`, `LIMIT`/`OFFSET` become `take`/`drop`,
  `LIKE` gets an executable matcher `likeMatch` with SQL wildcard
  semantics).
* Rust `i32`/`i64` values are modelled as `Int` (no claim touches overflow),
  timestamps as `Int` supplied through an explicit `now` argument, strings
  as Lean `String` (names are validated ASCII in this code base, so byte
  indices and char indices agree).
* Fallible Rust paths return `Except`/`Option`; a Rust task failure (panic,
  e.g. `Option::unwrap` on `None` or an out-of-range `str::slice`) is
  modelled as the `none` of an outer `Option`, distinct from a typed error.
* External collaborators (S3, the git index) are modelled at their interface
  boundary: success/failure oracles plus an explicit blob-path set and an
  append-only index list in `RegState`.
-/

namespace CratesIo

/-- A row of the `packages` table (struct `Package` in `package.rs`). -/
structure Package where
  id : Int
  name : String
  user_id : Int
  updated_at : Int
  created_at : Int
  downloads : Int
  deriving Repr, DecidableEq

/-- A row of the `versions` table (struct `Version` used by `package.rs`;
the struct itself lives in `version.rs`, its fields are those read here:
`id`, `package_id`, `num`, `downloads`). -/
structure Version where
  id : Int
  package_id : Int
  num : String
  downloads : Int
  deriving Repr, DecidableEq

/-- The JSON-facing record (struct `EncodablePackage`): note its `id` field
is a `String`, not the numeric row id. -/
structure EncodablePackage where
  id : String
  name : String
  versions : List Int
  updated_at : String
  created_at : String
  downloads : Int
  deriving Repr, DecidableEq

/-- The relational store: the tables touched by `package.rs`, in row order,
plus the id sequences and the `metadata.total_downloads` counter. -/
structure Store where
  packages : List Package
  versions : List Version
  version_dependencies : List (Int × Int)
  nextPkgId : Int
  nextVerId : Int
  total_downloads : Int
  deriving Repr, DecidableEq

/-- Modelled from the spec: the repository's `encode_time` (it lives outside
`src/`) renders a timestamp as a string; no claim inspects the rendering, so
any fixed rendering works. -/
def encode_time (t : Int) : String := toString t

namespace Package

/-- Embeds `Package::find_by_name`: `SELECT * FROM packages WHERE name = $1 LIMIT 1`,
first row or `NotFound`. -/
def find_by_name (st : Store) (name : String) : Option Package :=
  st.packages.find? (fun p => p.name == name)

/-- Embeds `Package::find_or_insert`: select by name; if a row exists return it
unchanged, otherwise insert a fresh row with `downloads = 0` and
`created_at = updated_at = now`.  Returns the updated store and the row. -/
def find_or_insert (st : Store) (name : String) (user_id : Int) (now : Int) :
    Store × Package :=
  match st.packages.find? (fun p => p.name == name) with
  | some p => (st, p)
  | none =>
    let p : Package :=
      { id := st.nextPkgId, name := name, user_id := user_id,
        updated_at := now, created_at := now, downloads := 0 }
    ({ st with packages := st.packages ++ [p], nextPkgId := st.nextPkgId + 1 }, p)

/-- Embeds `Package::valid_name`: nonempty, all chars alphanumeric, `_` or `-`. -/
def valid_name (name : String) : Bool :=
  name.length != 0 &&
    name.data.all (fun c => c.isAlphanum || c == '_' || c == '-')

/-- Embeds `Package::encodable`: the JSON record for one package; its `id` field is
the package `name` (cloned), the numeric row id is dropped. -/
def encodable (p : Package) (versions : List Int) : EncodablePackage :=
  { id := p.name, name := p.name, versions := versions,
    updated_at := encode_time p.updated_at,
    created_at := encode_time p.created_at,
    downloads := p.downloads }

/-- Embeds `Package::s3_path`: `/pkg/<name>/<name>-<version>.tar.gz`. -/
def s3_path (p : Package) (version : String) : String :=
  "/pkg/" ++ p.name ++ "/" ++ p.name ++ "-" ++ version ++ ".tar.gz"

end Package

/-! ## `Package::encode_many`

The bulk encoder queries `SELECT id, package_id FROM versions WHERE
package_id = ANY(<ids>)`, accumulates a `HashMap<package_id, Vec<id>>` by
`map.find_or_insert(pid, Vec::new()).push(id)`, and then encodes each input
package with `map.pop(&id).unwrap()`.  The hash map is modelled as an
association list keyed by package id (all access is keyed, so bucket order
is irrelevant); `unwrap()` on a missing key is a panic, i.e. `none`. -/

/-- Association list from package id to accumulated version ids. -/
abbrev VMap := List (Int × List Int)

/-- The `map.find_or_insert(k, Vec::new()).push(v)` step: append `v` to the entry for
`k`, creating the entry if absent. -/
def vmapPush (m : VMap) (k v : Int) : VMap :=
  match m with
  | [] => [(k, [v])]
  | (k', vs) :: rest =>
    if k' = k then (k', vs ++ [v]) :: rest else (k', vs) :: vmapPush rest k v

/-- The `map.pop(&k)` step: remove and return the entry for `k`, if any. -/
def vmapPop (m : VMap) (k : Int) : Option (List Int × VMap) :=
  match m with
  | [] => none
  | (k', vs) :: rest =>
    if k' = k then some (vs, rest)
    else match vmapPop rest k with
      | none => none
      | some (vs', m') => some (vs', (k', vs) :: m')

/-- The version-fetch loop of `encode_many`: fold the `versions` rows whose
`package_id` is among the batch ids into the map, in row order. -/
def buildVMap (versions : List Version) (pkgids : List Int) : VMap :=
  versions.foldl
    (fun m v => if v.package_id ∈ pkgids then vmapPush m v.package_id v.id else m)
    []

/-- The encode loop of `encode_many`: `p.encodable(map.pop(&id).unwrap())`
for each package; a missing entry is the `unwrap` panic (`none`). -/
def encodeLoop : VMap → List Package → Option (List EncodablePackage)
  | _, [] => some []
  | m, p :: rest =>
    match vmapPop m p.id with
    | none => none
    | some (vs, m') => (encodeLoop m' rest).map (fun tl => Package.encodable p vs :: tl)

/-- Embeds `Package::encode_many` over the `versions` table of the store. -/
def encode_many (versions : List Version) (pkgs : List Package) :
    Option (List EncodablePackage) :=
  encodeLoop (buildVMap versions (pkgs.map (fun p => p.id))) pkgs

/-! ## The `index` (list) endpoint

`index` parses `page` (default 1) and `per_page` (default 10) as `i64`,
rejects `per_page > 100` before touching the tables, builds a `LIKE`
pattern from the **first character** of the optional `letter` parameter
(lower-cased, `char_at(0)` — a panic when the parameter is the empty
string), selects a `LIMIT/OFFSET` page of matching packages, bulk-encodes
it, and separately counts all matching rows. -/

/-- Postgres `LIKE` semantics on char lists: `%` matches any suffix split,
`_` matches one char, any other pattern char matches itself.  Structural on
the pattern (the `%` case tries every tail of the subject). -/
def likeMatch : List Char → List Char → Bool
  | [], s => s.isEmpty
  | p :: ps, s =>
    if p = '%' then s.tails.any (fun t => likeMatch ps t)
    else
      match s with
      | [] => false
      | c :: s' => (p = '_' || p = c) && likeMatch ps s'

/-- The `LIKE` pattern built by `index` from the `letter` query parameter:
`'<first char lowercased>%'` when present, `'%'` when absent; `char_at(0)`
panics on the empty string (`none`). -/
def letterPattern (letter : Option String) : Option (List Char) :=
  match letter with
  | none => some ['%']
  | some s =>
    match s.data with
    | [] => none
    | c :: _ => some [c.toLower, '%']

/-- Typed errors surfaced by the endpoints of `package.rs` (the `human`,
`NotFound` and `internal` error values relevant to the claims). -/
inductive ApiError where
  | invalidRequest (msg : String)
  | notFound
  | ownershipConflict
  | versionAlreadyPublished (vers : String)
  | versionInsertConflict
  | unknownDependency (name : String)
  | uploadFailed
  | indexingFailed
  | storeFailed
  deriving Repr, DecidableEq

/-- Embeds `index`: the full listing request.  `none` is a panic (empty `letter`
string, or `encode_many`'s unwrap); `some (Except.error e)` a typed error;
`some (Except.ok (pkgs, total))` the response body. -/
def index (st : Store) (page? perPage? : Option Int) (letter : Option String) :
    Option (Except ApiError (List EncodablePackage × Int)) :=
  let page := page?.getD 1
  let limit := perPage?.getD 10
  if limit > 100 then
    some (Except.error (ApiError.invalidRequest "cannot request more than 100 packages"))
  else
    let offset := (page - 1) * limit
    match letterPattern letter with
    | none => none
    | some pat =>
      if limit < 0 || offset < 0 then some (Except.error ApiError.storeFailed)
      else
        let matching := st.packages.filter (fun p => likeMatch pat p.name.data)
        let pageRows := (matching.drop offset.toNat).take limit.toNat
        match encode_many st.versions pageRows with
        | none => none
        | some enc => some (Except.ok (enc, (matching.length : Int)))

/-! ## The download redirector

`download` checks that `filename` starts with the package name and ends in
`.tar.gz`, then takes `filename.slice(pkg_name.len() + 1, filename.len() -
".tar.gz".len())` as the version — an out-of-range slice (hence a task
failure) whenever `pkg_name.len() + 1 > filename.len() - 7`.  It resolves
the `(package, version)` pair with one join query, bumps three download
counters with `try!`-propagated `UPDATE`s, and redirects (or returns a JSON
envelope) to the blob location. -/

/-- The join `SELECT packages.id, versions.id FROM packages LEFT JOIN
versions ON packages.id = versions.package_id WHERE packages.name = $1 AND
versions.num = $2 LIMIT 1`: first package row with the name that has a
version row with the number. -/
def joinFind (st : Store) (name num : String) : Option (Package × Version) :=
  ((st.packages.filter (fun p => p.name == name)).filterMap (fun p =>
    (st.versions.find? (fun v => v.package_id == p.id && v.num == num)).map
      (fun v => (p, v)))).head?

/-- The two response shapes of `download`: a redirect, or (when the caller
`wants_json`) an envelope carrying the same URL. -/
inductive DlResponse where
  | redirect (url : String)
  | jsonUrl (url : String)
  deriving Repr, DecidableEq

/-- Increment `downloads` of every `packages` row with the given id
(`UPDATE packages SET downloads = downloads + 1 WHERE id = $1`). -/
def bumpPkg (id : Int) (p : Package) : Package :=
  if p.id = id then { p with downloads := p.downloads + 1 } else p

/-- Increment `downloads` of every `versions` row with the given id. -/
def bumpVer (id : Int) (v : Version) : Version :=
  if v.id = id then { v with downloads := v.downloads + 1 } else v

/-- Embeds `download`.  `host` is the configured blob host; the three `incOk`
oracles model the success of the three counter `UPDATE`s (each is wrapped
in `try!` in the source, so a failure propagates as a typed error).
`none` is the slice panic. -/
def download (st : Store) (pkg_name filename : String) (host : String)
    (wantsJson : Bool) (pkgIncOk verIncOk metaIncOk : Bool) :
    Option (Store × Except ApiError DlResponse) :=
  if !(pkg_name.data.isPrefixOf filename.data) || !(".tar.gz".data.isSuffixOf filename.data) then
    some (st, Except.error (ApiError.invalidRequest
      "download filename is not a tarball with the package name as a prefix"))
  else if pkg_name.length + 1 > filename.length - 7 then
    none
  else
    let version : String :=
      ⟨(filename.data.drop (pkg_name.length + 1)).take
        (filename.length - 7 - (pkg_name.length + 1))⟩
    match joinFind st pkg_name version with
    | none => some (st, Except.error ApiError.notFound)
    | some (p, v) =>
      if !pkgIncOk then some (st, Except.error ApiError.storeFailed)
      else
        let st1 := { st with packages := st.packages.map (bumpPkg p.id) }
        if !verIncOk then some (st, Except.error ApiError.storeFailed)
        else
          let st2 := { st1 with versions := st1.versions.map (bumpVer v.id) }
          if !metaIncOk then some (st, Except.error ApiError.storeFailed)
          else
            let st3 := { st2 with total_downloads := st2.total_downloads + 1 }
            let url := "https://" ++ host ++ "/pkg/" ++ pkg_name ++ "/" ++
              pkg_name ++ "-" ++ version ++ ".tar.gz"
            some (st3, Except.ok (if wantsJson then DlResponse.jsonUrl url
                                  else DlResponse.redirect url))

/-! ## The publish saga (`new`)

`new` reserves the package row (`find_or_insert`), checks ownership,
rejects an already-published version, inserts the version row, links each
declared dependency (aborting on the first unknown name), uploads the blob
to S3, arms a drop-based rollback `Bomb` that deletes the blob, registers
the package in the git index, and disarms the bomb only after that
registration succeeds.  The embedding starts after `parse_new_headers`
(name already lower-cased and validated) and models S3 and git as
success/failure oracles. -/

/-- Modelled from the spec: `Version::find_by_num` lives in `version.rs`,
outside `src/`; §4.2 gives `find_version(package_id, num) -> Version | None`
— the first `versions` row with that package id and number. -/
def Version.find_by_num (st : Store) (package_id : Int) (num : String) :
    Option Version :=
  st.versions.find? (fun v => v.package_id == package_id && v.num == num)

/-- Modelled from the spec: `Version::insert` lives in `version.rs`, outside
`src/`; §4.2 gives `insert_version(package_id, num) -> Version`, failing
with `Conflict` (`none`) when `(package_id, num)` already exists, otherwise
appending a fresh row with `downloads = 0`. -/
def Version.insert (st : Store) (package_id : Int) (num : String) :
    Option (Store × Version) :=
  match Version.find_by_num st package_id num with
  | some _ => none
  | none =>
    let v : Version :=
      { id := st.nextVerId, package_id := package_id, num := num, downloads := 0 }
    some ({ st with versions := st.versions ++ [v], nextVerId := st.nextVerId + 1 }, v)

/-- The dependency-linking loop of `new`: for each declared dependency name
in order, resolve it with `find_by_name` (an unknown name aborts with that
name) and insert a `version_dependencies` edge. -/
def linkDeps (st : Store) (verId : Int) : List String → Except (String × Store) Store
  | [] => Except.ok st
  | d :: rest =>
    match Package.find_by_name st d with
    | none => Except.error (d, st)
    | some p =>
      linkDeps
        { st with version_dependencies := st.version_dependencies ++ [(verId, p.id)] }
        verId rest

/-- The cross-store state of the saga: the relational store, the set of
blob paths present in S3, and the append-only git index (entries
`(name, version)`; checksum/deps/features ride along in `git::add_package`
but no claim inspects them). -/
structure RegState where
  store : Store
  blobs : List String
  index : List (String × String)
  deriving Repr, DecidableEq

/-- S3 `put`: the path becomes present (keys are a set; re-putting an
existing key leaves the set unchanged). -/
def blobPut (blobs : List String) (path : String) : List String :=
  if path ∈ blobs then blobs else blobs ++ [path]

/-- S3 `delete` (the Bomb's compensating action): the key is removed. -/
def blobDelete (blobs : List String) (path : String) : List String :=
  blobs.filter (fun q => q ≠ path)

/-- The publish saga `new`, from the point where `parse_new_headers` has
produced the lower-cased `name`, the `vers` string, the dependency names
and the authenticated user id.  `s3ok` and `gitok` are the collaborator
oracles; `now` the row timestamp.  The result pairs the final cross-store
state with the typed outcome. -/
def publish (rs : RegState) (name vers : String) (userId : Int)
    (deps : List String) (s3ok gitok : Bool) (now : Int) :
    RegState × Except ApiError EncodablePackage :=
  let resv := Package.find_or_insert rs.store name userId now
  let st1 := resv.1
  let pkg := resv.2
  let rs1 : RegState := { rs with store := st1 }
  if pkg.user_id ≠ userId then
    (rs1, Except.error ApiError.ownershipConflict)
  else
    match Version.find_by_num st1 pkg.id vers with
    | some _ => (rs1, Except.error (ApiError.versionAlreadyPublished vers))
    | none =>
      match Version.insert st1 pkg.id vers with
      | none => (rs1, Except.error ApiError.versionInsertConflict)
      | some (st2, ver) =>
        match linkDeps st2 ver.id deps with
        | Except.error (bad, st') =>
          ({ rs1 with store := st' }, Except.error (ApiError.unknownDependency bad))
        | Except.ok st3 =>
          let rs3 : RegState := { rs1 with store := st3 }
          if !s3ok then
            (rs3, Except.error ApiError.uploadFailed)
          else
            let path := pkg.s3_path vers
            let blobs1 := blobPut rs.blobs path
            -- the Bomb is armed from here on: any error path below fires
            -- its drop and deletes `path`
            match Package.find_by_name st3 name with
            | none =>
              ({ store := st3, blobs := blobDelete blobs1 path, index := rs.index },
               Except.error ApiError.notFound)
            | some pkg2 =>
              if !gitok then
                ({ store := st3, blobs := blobDelete blobs1 path, index := rs.index },
                 Except.error ApiError.indexingFailed)
              else
                -- `bomb.path = None`: disarmed, blob retained, index written
                ({ store := st3, blobs := blobs1, index := rs.index ++ [(name, vers)] },
                 Except.ok (Package.encodable pkg2 []))

/-! ## Concrete fixtures used by witnesses and counterexamples -/

/-- A published package row: `foo`, owned by user 7. -/
def pkgFoo : Package :=
  { id := 1, name := "foo", user_id := 7, updated_at := 0, created_at := 0, downloads := 0 }

/-- The version row `foo@1.0.0`. -/
def verFoo : Version :=
  { id := 11, package_id := 1, num := "1.0.0", downloads := 0 }

/-- A store holding `foo` with its single version `1.0.0`. -/
def stFoo : Store :=
  { packages := [pkgFoo], versions := [verFoo], version_dependencies := [],
    nextPkgId := 2, nextVerId := 12, total_downloads := 0 }

/-- The cross-store state holding only `stFoo`. -/
def rsFoo : RegState := { store := stFoo, blobs := [], index := [] }

/-- A package row named `ax` (its name starts with `a` but not with `ab`). -/
def pkgAx : Package :=
  { id := 2, name := "ax", user_id := 7, updated_at := 0, created_at := 0, downloads := 0 }

/-- The version row `ax@0.1`. -/
def verAx : Version :=
  { id := 12, package_id := 2, num := "0.1", downloads := 0 }

/-- A store holding `ax` with its single version. -/
def stAx : Store :=
  { packages := [pkgAx], versions := [verAx], version_dependencies := [],
    nextPkgId := 3, nextVerId := 13, total_downloads := 0 }

/-- A store holding the package `foo` with **no** version rows (the benign
artifact of a failed first publish that §7 of the spec accepts). -/
def stNoVer : Store :=
  { packages := [pkgFoo], versions := [], version_dependencies := [],
    nextPkgId := 2, nextVerId := 11, total_downloads := 0 }

/-! ## C10 — the encoded `id` is the name, never the numeric row id -/

/-- C10: every encoded package record produced by `Package::encodable` (the
single constructor of `EncodablePackage` used by list, summary, show and
publish responses) has the package's `name` string as its `id` field, and
the record is invariant under changing the numeric row id — the row id is
never exposed. -/
theorem encodable_id_is_name (p : Package) (vs : List Int) :
    (Package.encodable p vs).id = p.name ∧
    ∀ j : Int, Package.encodable { p with id := j } vs = Package.encodable p vs := by
  exact ⟨rfl, fun _ => rfl⟩

/-! ## C1 — `encode_many` on a package with no versions -/

/-- C1 (evaluation at the failing input): `encode_many` on a batch holding a
package that has no versions does **not** yield an empty version-id list: the
`map.pop(&id).unwrap()` in the source unwraps `None` and the task fails,
modelled as `none`.  The claim (and spec §4.3) say such a package yields an
empty list, never an error. -/
theorem encode_many_versionless_faults :
    encode_many stNoVer.versions stNoVer.packages = none := rfl

/-! ## C2 — the download filename parse -/

/-- C2 (evaluation at the failing input): a download request for package
`foo` with filename `foo.tar.gz` — the package name directly followed by the
archive suffix — passes both guard checks, after which the source computes
`filename.slice(4, 3)`, an out-of-range slice that fails the task (`none`)
instead of returning a typed error.  The claim (and spec §7) say every such
request gets a typed result. -/
theorem download_slice_faults :
    download stFoo "foo" "foo.tar.gz" "blobhost" false true true true = none := rfl

/-! ## C5 — idempotence of `find_or_insert` -/

/-- C5: `Package::find_or_insert` is idempotent.  If a row with the name
already exists it is returned with the store unchanged — in particular its
`user_id` is not overwritten even though the caller passed a (possibly
different) `user_id` — and a second call with the same name (any caller, any
clock) returns the same package and leaves the store of the first call
untouched, so no second row is ever created. -/
theorem find_or_insert_idempotent (st : Store) (name : String)
    (uid now uid2 now2 : Int) :
    (∀ p, Package.find_by_name st name = some p →
        Package.find_or_insert st name uid now = (st, p)) ∧
    Package.find_or_insert (Package.find_or_insert st name uid now).1 name uid2 now2 =
      ((Package.find_or_insert st name uid now).1,
       (Package.find_or_insert st name uid now).2) := by
  constructor
  · intro p hp
    unfold Package.find_or_insert
    rw [Package.find_by_name] at hp
    rw [hp]
  · rcases h : st.packages.find? (fun p => p.name == name) with _ | p
    · have h1 : Package.find_or_insert st name uid now =
          ({ st with
              packages := st.packages ++
                [{ id := st.nextPkgId, name := name, user_id := uid,
                   updated_at := now, created_at := now, downloads := 0 }],
              nextPkgId := st.nextPkgId + 1 },
           { id := st.nextPkgId, name := name, user_id := uid,
             updated_at := now, created_at := now, downloads := 0 }) := by
        unfold Package.find_or_insert
        rw [h]
      rw [h1]
      unfold Package.find_or_insert
      simp [h]
    · have h1 : Package.find_or_insert st name uid now = (st, p) := by
        unfold Package.find_or_insert
        rw [h]
      rw [h1]
      unfold Package.find_or_insert
      rw [h]

/-- Witness for C5 at a concrete store: `foo` already exists owned by user
7; a call on behalf of user 99 returns the row unchanged. -/
theorem find_or_insert_idempotent_witness :
    Package.find_by_name stFoo "foo" = some pkgFoo ∧
    Package.find_or_insert stFoo "foo" 99 5 = (stFoo, pkgFoo) ∧
    Package.find_or_insert (Package.find_or_insert stFoo "foo" 99 5).1 "foo" 42 6 =
      ((Package.find_or_insert stFoo "foo" 99 5).1,
       (Package.find_or_insert stFoo "foo" 99 5).2) :=
  ⟨rfl, (find_or_insert_idempotent stFoo "foo" 99 5 42 6).1 pkgFoo rfl,
   (find_or_insert_idempotent stFoo "foo" 99 5 42 6).2⟩

/-! ## Helper lemmas about the catalog operations -/

/-- The operation `find_or_insert` never touches the `versions` table. -/
theorem find_or_insert_versions (st : Store) (name : String) (uid now : Int) :
    (Package.find_or_insert st name uid now).1.versions = st.versions := by
  unfold Package.find_or_insert
  rcases h : st.packages.find? (fun p => p.name == name) with _ | p <;> rw [h]

/-- The row returned by `find_or_insert` carries the requested name. -/
theorem find_or_insert_name (st : Store) (name : String) (uid now : Int) :
    (Package.find_or_insert st name uid now).2.name = name := by
  unfold Package.find_or_insert
  rcases h : st.packages.find? (fun p => p.name == name) with _ | p
  · rw [h]
  · rw [h]
    simpa using List.find?_some h

/-- After `find_or_insert`, `find_by_name` on the same name finds exactly
the returned row. -/
theorem find_or_insert_find_by_name (st : Store) (name : String) (uid now : Int) :
    Package.find_by_name (Package.find_or_insert st name uid now).1 name =
      some (Package.find_or_insert st name uid now).2 := by
  unfold Package.find_or_insert Package.find_by_name
  rcases h : st.packages.find? (fun p => p.name == name) with _ | p
  · rw [h]
    simp [h]
  · rw [h]
    exact h

/-- The loop `linkDeps` aborts with the first declared dependency whose name does not
resolve (linking only mutates `version_dependencies`, which `find_by_name`
never reads). -/
theorem linkDeps_error (deps : List String) :
    ∀ (st : Store) (verId : Int) (bad : String),
      deps.find? (fun d => (Package.find_by_name st d).isNone) = some bad →
      ∃ st', linkDeps st verId deps = Except.error (bad, st') ∧
        st'.packages = st.packages := by
  induction deps with
  | nil => intro st verId bad h; simp at h
  | cons d rest ih =>
    intro st verId bad h
    rcases hd : Package.find_by_name st d with _ | p
    · have hbad : bad = d := by
        rw [List.find?_cons_of_pos] at h
        · exact (Option.some.injEq _ _).mp h.symm ▸ rfl
        · simp [hd]
      subst hbad
      exact ⟨st, by unfold linkDeps; rw [hd], rfl⟩
    · have hrest : rest.find? (fun e => (Package.find_by_name st e).isNone) = some bad := by
        rw [List.find?_cons_of_neg] at h
        · exact h
        · simp [hd]
      obtain ⟨st', hlink, hpk⟩ := ih
        { st with version_dependencies := st.version_dependencies ++ [(verId, p.id)] }
        verId bad hrest
      refine ⟨st', ?_, hpk⟩
      unfold linkDeps
      rw [hd]
      exact hlink

/-- The loop `linkDeps` succeeds when every declared dependency name resolves, and
leaves the `packages` table untouched. -/
theorem linkDeps_ok (deps : List String) :
    ∀ (st : Store) (verId : Int),
      (∀ d ∈ deps, (Package.find_by_name st d).isSome) →
      ∃ st', linkDeps st verId deps = Except.ok st' ∧
        st'.packages = st.packages ∧ st'.versions = st.versions := by
  induction deps with
  | nil => intro st verId _; exact ⟨st, rfl, rfl, rfl⟩
  | cons d rest ih =>
    intro st verId h
    rcases hd : Package.find_by_name st d with _ | p
    · have := h d (by simp)
      rw [hd] at this
      simp at this
    · obtain ⟨st', hlink, hpk, hver⟩ := ih
        { st with version_dependencies := st.version_dependencies ++ [(verId, p.id)] }
        verId (fun e he => h e (by simp [he]))
      refine ⟨st', ?_, hpk, hver⟩
      unfold linkDeps
      rw [hd]
      exact hlink

/-! ## C6 — re-publishing an existing version -/

/-- C6: a publish whose `(package, version)` pair already exists in the
catalog fails with `VersionAlreadyPublished`, and on that attempt no blob is
written, no index entry is written, and the `versions` table is untouched —
versions are append-only and never overwritten. -/
theorem publish_version_already_published (rs : RegState) (name vers : String)
    (userId : Int) (deps : List String) (s3ok gitok : Bool) (now : Int)
    (howner : (Package.find_or_insert rs.store name userId now).2.user_id = userId)
    (hver : Version.find_by_num (Package.find_or_insert rs.store name userId now).1
        (Package.find_or_insert rs.store name userId now).2.id vers ≠ none) :
    (publish rs name vers userId deps s3ok gitok now).2 =
      Except.error (ApiError.versionAlreadyPublished vers) ∧
    (publish rs name vers userId deps s3ok gitok now).1.blobs = rs.blobs ∧
    (publish rs name vers userId deps s3ok gitok now).1.index = rs.index ∧
    (publish rs name vers userId deps s3ok gitok now).1.store.versions =
      rs.store.versions := by
  rcases hv : Version.find_by_num (Package.find_or_insert rs.store name userId now).1
      (Package.find_or_insert rs.store name userId now).2.id vers with _ | v
  · exact absurd hv hver
  · have hmain : publish rs name vers userId deps s3ok gitok now =
        ({ rs with store := (Package.find_or_insert rs.store name userId now).1 },
         Except.error (ApiError.versionAlreadyPublished vers)) := by
      unfold publish
      simp only [howner, ne_eq, not_true_eq_false, if_false, hv]
    rw [hmain]
    exact ⟨rfl, rfl, rfl, find_or_insert_versions rs.store name userId now⟩

/-- Witness for C6: re-publishing `foo@1.0.0` (already present in `stFoo`)
on behalf of its owner, user 7. -/
theorem publish_version_already_published_witness :
    (Package.find_or_insert rsFoo.store "foo" 7 9).2.user_id = 7 ∧
    Version.find_by_num (Package.find_or_insert rsFoo.store "foo" 7 9).1
      (Package.find_or_insert rsFoo.store "foo" 7 9).2.id "1.0.0" ≠ none ∧
    (publish rsFoo "foo" "1.0.0" 7 [] true true 9).2 =
      Except.error (ApiError.versionAlreadyPublished "1.0.0") ∧
    (publish rsFoo "foo" "1.0.0" 7 [] true true 9).1.blobs = rsFoo.blobs ∧
    (publish rsFoo "foo" "1.0.0" 7 [] true true 9).1.index = rsFoo.index :=
  ⟨by decide, by decide,
   (publish_version_already_published rsFoo "foo" "1.0.0" 7 [] true true 9
      (by decide) (by decide)).1,
   (publish_version_already_published rsFoo "foo" "1.0.0" 7 [] true true 9
      (by decide) (by decide)).2.1,
   (publish_version_already_published rsFoo "foo" "1.0.0" 7 [] true true 9
      (by decide) (by decide)).2.2.1⟩

/-! ## C7 — unknown dependency aborts before blob/index -/

/-- C7: a publish whose declared dependency list contains a name that does
not resolve in the catalog (the first such name, in declaration order, being
`bad`) aborts with `UnknownDependency bad`, and the abort happens before the
blob upload and before the index write: the blob set and the index of the
resulting state are exactly those of the initial state. -/
theorem publish_unknown_dependency (rs : RegState) (name vers : String)
    (userId : Int) (deps : List String) (s3ok gitok : Bool) (now : Int)
    (bad : String)
    (howner : (Package.find_or_insert rs.store name userId now).2.user_id = userId)
    (hver : Version.find_by_num (Package.find_or_insert rs.store name userId now).1
        (Package.find_or_insert rs.store name userId now).2.id vers = none)
    (hbad : deps.find? (fun d =>
        (Package.find_by_name (Package.find_or_insert rs.store name userId now).1
          d).isNone) = some bad) :
    (publish rs name vers userId deps s3ok gitok now).2 =
      Except.error (ApiError.unknownDependency bad) ∧
    (publish rs name vers userId deps s3ok gitok now).1.blobs = rs.blobs ∧
    (publish rs name vers userId deps s3ok gitok now).1.index = rs.index := by
  rcases hins : Version.insert (Package.find_or_insert rs.store name userId now).1
      (Package.find_or_insert rs.store name userId now).2.id vers with _ | p2
  · unfold Version.insert at hins
    rw [hver] at hins
    simp at hins
  · obtain ⟨st2, ver⟩ := p2
    have hpack2 : st2.packages =
        (Package.find_or_insert rs.store name userId now).1.packages := by
      have hexp : Version.insert (Package.find_or_insert rs.store name userId now).1
          (Package.find_or_insert rs.store name userId now).2.id vers =
          some ({ (Package.find_or_insert rs.store name userId now).1 with
                    versions := (Package.find_or_insert rs.store name userId now).1.versions ++
                      [{ id := (Package.find_or_insert rs.store name userId now).1.nextVerId,
                         package_id := (Package.find_or_insert rs.store name userId now).2.id,
                         num := vers, downloads := 0 }],
                    nextVerId :=
                      (Package.find_or_insert rs.store name userId now).1.nextVerId + 1 },
                { id := (Package.find_or_insert rs.store name userId now).1.nextVerId,
                  package_id := (Package.find_or_insert rs.store name userId now).2.id,
                  num := vers, downloads := 0 }) := by
        unfold Version.insert
        rw [hver]
      rw [hins] at hexp
      have h2 := Option.some.inj hexp
      simpa using congrArg (fun x => x.1.packages) h2
    have hbad2 : deps.find? (fun d => (Package.find_by_name st2 d).isNone) = some bad := by
      have hfun : (fun d => (Package.find_by_name st2 d).isNone) =
          (fun d => (Package.find_by_name
            (Package.find_or_insert rs.store name userId now).1 d).isNone) := by
        funext d
        unfold Package.find_by_name
        rw [hpack2]
      rw [hfun]
      exact hbad
    obtain ⟨st', hlink, _⟩ := linkDeps_error deps st2 ver.id bad hbad2
    have hmain : publish rs name vers userId deps s3ok gitok now =
        ({ rs with store := st' },
         Except.error (ApiError.unknownDependency bad)) := by
      unfold publish
      simp only [howner, ne_eq, not_true_eq_false, if_false, hver, hins, hlink]
    rw [hmain]
    exact ⟨rfl, rfl, rfl⟩

/-- Witness for C7: publishing `foo@2.0.0` declaring a dependency on the
nonexistent package `nope`. -/
theorem publish_unknown_dependency_witness :
    (Package.find_or_insert rsFoo.store "foo" 7 9).2.user_id = 7 ∧
    Version.find_by_num (Package.find_or_insert rsFoo.store "foo" 7 9).1
      (Package.find_or_insert rsFoo.store "foo" 7 9).2.id "2.0.0" = none ∧
    ["nope"].find? (fun d =>
      (Package.find_by_name (Package.find_or_insert rsFoo.store "foo" 7 9).1
        d).isNone) = some "nope" ∧
    (publish rsFoo "foo" "2.0.0" 7 ["nope"] true true 9).2 =
      Except.error (ApiError.unknownDependency "nope") ∧
    (publish rsFoo "foo" "2.0.0" 7 ["nope"] true true 9).1.blobs = rsFoo.blobs ∧
    (publish rsFoo "foo" "2.0.0" 7 ["nope"] true true 9).1.index = rsFoo.index :=
  ⟨by decide, by decide, by decide,
   (publish_unknown_dependency rsFoo "foo" "2.0.0" 7 ["nope"] true true 9 "nope"
      (by decide) (by decide) (by decide)).1,
   (publish_unknown_dependency rsFoo "foo" "2.0.0" 7 ["nope"] true true 9 "nope"
      (by decide) (by decide) (by decide)).2.1,
   (publish_unknown_dependency rsFoo "foo" "2.0.0" 7 ["nope"] true true 9 "nope"
      (by decide) (by decide) (by decide)).2.2⟩

/-! ## C8 — the drop-based rollback guard (`Bomb`) -/

/-- After an S3 `put`, the path is present. -/
theorem mem_blobPut_self (blobs : List String) (path : String) :
    path ∈ blobPut blobs path := by
  unfold blobPut
  by_cases h : path ∈ blobs
  · rw [if_pos h]; exact h
  · rw [if_neg h]; simp

/-- After the Bomb's compensating `delete`, the path is gone. -/
theorem not_mem_blobDelete (blobs : List String) (path : String) :
    path ∉ blobDelete blobs path := by
  unfold blobDelete
  simp

/-- C8: in a publish that passes reservation and dependency linking (owner
matches, version fresh, all dependencies resolve) and whose blob upload
succeeds: if the index-commit (git) step fails, the armed `Bomb` deletes the
just-written blob at the deterministic path `/pkg/<name>/<name>-<vers>.tar.gz`,
no index entry is written, and the caller receives `IndexingFailed`; if the
index commit succeeds, the guard is disarmed, the blob is retained, and the
index gains exactly the `(name, vers)` entry. -/
theorem publish_rollback_guard (rs : RegState) (name vers : String) (userId : Int)
    (deps : List String) (now : Int)
    (howner : (Package.find_or_insert rs.store name userId now).2.user_id = userId)
    (hver : Version.find_by_num (Package.find_or_insert rs.store name userId now).1
        (Package.find_or_insert rs.store name userId now).2.id vers = none)
    (hdeps : ∀ d ∈ deps,
        (Package.find_by_name (Package.find_or_insert rs.store name userId now).1
          d).isSome) :
    ((publish rs name vers userId deps true false now).2 =
        Except.error ApiError.indexingFailed ∧
     ("/pkg/" ++ name ++ "/" ++ name ++ "-" ++ vers ++ ".tar.gz") ∉
        (publish rs name vers userId deps true false now).1.blobs ∧
     (publish rs name vers userId deps true false now).1.index = rs.index) ∧
    ((∃ enc, (publish rs name vers userId deps true true now).2 = Except.ok enc) ∧
     ("/pkg/" ++ name ++ "/" ++ name ++ "-" ++ vers ++ ".tar.gz") ∈
        (publish rs name vers userId deps true true now).1.blobs ∧
     (publish rs name vers userId deps true true now).1.index =
        rs.index ++ [(name, vers)]) := by
  rcases hins : Version.insert (Package.find_or_insert rs.store name userId now).1
      (Package.find_or_insert rs.store name userId now).2.id vers with _ | p2
  · unfold Version.insert at hins
    rw [hver] at hins
    simp at hins
  · obtain ⟨st2, ver⟩ := p2
    have hpack2 : st2.packages =
        (Package.find_or_insert rs.store name userId now).1.packages := by
      have hexp : Version.insert (Package.find_or_insert rs.store name userId now).1
          (Package.find_or_insert rs.store name userId now).2.id vers =
          some ({ (Package.find_or_insert rs.store name userId now).1 with
                    versions := (Package.find_or_insert rs.store name userId now).1.versions ++
                      [{ id := (Package.find_or_insert rs.store name userId now).1.nextVerId,
                         package_id := (Package.find_or_insert rs.store name userId now).2.id,
                         num := vers, downloads := 0 }],
                    nextVerId :=
                      (Package.find_or_insert rs.store name userId now).1.nextVerId + 1 },
                { id := (Package.find_or_insert rs.store name userId now).1.nextVerId,
                  package_id := (Package.find_or_insert rs.store name userId now).2.id,
                  num := vers, downloads := 0 }) := by
        unfold Version.insert
        rw [hver]
      rw [hins] at hexp
      have h2 := Option.some.inj hexp
      simpa using congrArg (fun x => x.1.packages) h2
    have hdeps2 : ∀ d ∈ deps, (Package.find_by_name st2 d).isSome := by
      intro d hd
      have hh := hdeps d hd
      unfold Package.find_by_name at hh ⊢
      rw [hpack2]
      exact hh
    obtain ⟨st3, hlink, hpk3, _⟩ := linkDeps_ok deps st2 ver.id hdeps2
    have hfb : Package.find_by_name st3 name =
        some (Package.find_or_insert rs.store name userId now).2 := by
      have hfb1 := find_or_insert_find_by_name rs.store name userId now
      unfold Package.find_by_name at hfb1 ⊢
      rw [hpk3, hpack2]
      exact hfb1
    have hpath : (Package.find_or_insert rs.store name userId now).2.s3_path vers =
        "/pkg/" ++ name ++ "/" ++ name ++ "-" ++ vers ++ ".tar.gz" := by
      unfold Package.s3_path
      rw [find_or_insert_name]
    have hmainF : publish rs name vers userId deps true false now =
        ({ store := st3,
           blobs := blobDelete
             (blobPut rs.blobs ("/pkg/" ++ name ++ "/" ++ name ++ "-" ++ vers ++ ".tar.gz"))
             ("/pkg/" ++ name ++ "/" ++ name ++ "-" ++ vers ++ ".tar.gz"),
           index := rs.index },
         Except.error ApiError.indexingFailed) := by
      unfold publish
      simp only [howner, ne_eq, not_true_eq_false, if_false, hver, hins, hlink, hfb,
        hpath, Bool.not_true, Bool.not_false, if_true, Bool.false_eq_true, ite_true,
        ite_false]
    have hmainT : publish rs name vers userId deps true true now =
        ({ store := st3,
           blobs := blobPut rs.blobs
             ("/pkg/" ++ name ++ "/" ++ name ++ "-" ++ vers ++ ".tar.gz"),
           index := rs.index ++ [(name, vers)] },
         Except.ok (Package.encodable (Package.find_or_insert rs.store name userId now).2
           [])) := by
      unfold publish
      simp only [howner, ne_eq, not_true_eq_false, if_false, hver, hins, hlink, hfb,
        hpath, Bool.not_true, Bool.not_false, if_true, Bool.false_eq_true, ite_true,
        ite_false]
    refine ⟨⟨?_, ?_, ?_⟩, ⟨?_, ?_, ?_⟩⟩
    · rw [hmainF]
    · rw [hmainF]
      exact not_mem_blobDelete _ _
    · rw [hmainF]
    · exact ⟨_, by rw [hmainT]⟩
    · rw [hmainT]
      exact mem_blobPut_self _ _
    · rw [hmainT]

/-- Witness for C8: publishing the fresh version `foo@2.0.0` with no
dependencies over `rsFoo`; with the git step failing the blob is gone and
the caller sees `IndexingFailed`, with it succeeding the blob and the index
entry are present. -/
theorem publish_rollback_guard_witness :
    (Package.find_or_insert rsFoo.store "foo" 7 9).2.user_id = 7 ∧
    Version.find_by_num (Package.find_or_insert rsFoo.store "foo" 7 9).1
      (Package.find_or_insert rsFoo.store "foo" 7 9).2.id "2.0.0" = none ∧
    ((publish rsFoo "foo" "2.0.0" 7 [] true false 9).2 =
        Except.error ApiError.indexingFailed ∧
     ("/pkg/" ++ "foo" ++ "/" ++ "foo" ++ "-" ++ "2.0.0" ++ ".tar.gz") ∉
        (publish rsFoo "foo" "2.0.0" 7 [] true false 9).1.blobs) ∧
    ((publish rsFoo "foo" "2.0.0" 7 [] true true 9).1.index =
        rsFoo.index ++ [("foo", "2.0.0")]) :=
  ⟨by decide, by decide,
   ⟨(publish_rollback_guard rsFoo "foo" "2.0.0" 7 [] 9 (by decide) (by decide)
       (by intro d hd; simp at hd)).1.1,
    (publish_rollback_guard rsFoo "foo" "2.0.0" 7 [] 9 (by decide) (by decide)
       (by intro d hd; simp at hd)).1.2.1⟩,
   (publish_rollback_guard rsFoo "foo" "2.0.0" 7 [] 9 (by decide) (by decide)
       (by intro d hd; simp at hd)).2.2.2⟩

/-! ## C9 — download-counter accounting -/

/-- C9 (counterexample to the claim as stated): a resolved download request
for `foo/foo-1.0.0.tar.gz` in which the package-counter `UPDATE` fails.  The
source wraps each counter increment in `try!`, so the failure propagates and
the caller receives a typed error instead of the redirect — the claim's "a
failure ... in any of the increments never fails or blocks the caller's
redirect" does not hold of the code. -/
theorem download_inc_failure_fails_caller :
    download stFoo "foo" "foo-1.0.0.tar.gz" "blobhost" false false true true =
      some (stFoo, Except.error ApiError.storeFailed) := by
  rfl

/-- C9 (amended): on a resolved download request whose counter updates
succeed, the package's `downloads`, the version's `downloads` and the global
`metadata.total_downloads` each increase by exactly 1 (and only the
addressed rows change), so non-negative counters stay non-negative; the
caller is redirected (or handed the JSON envelope) pointing at
`https://<host>/pkg/<name>/<name>-<vers>.tar.gz`. -/
theorem download_counters (st : Store) (pkg_name vers host : String)
    (wantsJson : Bool) (p : Package) (v : Version)
    (hjoin : joinFind st pkg_name vers = some (p, v)) :
    download st pkg_name (pkg_name ++ "-" ++ vers ++ ".tar.gz") host wantsJson
        true true true =
      some ({ st with
                packages := st.packages.map (bumpPkg p.id),
                versions := st.versions.map (bumpVer v.id),
                total_downloads := st.total_downloads + 1 },
            Except.ok (if wantsJson then
              DlResponse.jsonUrl ("https://" ++ host ++ "/pkg/" ++ pkg_name ++ "/" ++
                pkg_name ++ "-" ++ vers ++ ".tar.gz")
            else
              DlResponse.redirect ("https://" ++ host ++ "/pkg/" ++ pkg_name ++ "/" ++
                pkg_name ++ "-" ++ vers ++ ".tar.gz"))) ∧
    (∀ q ∈ st.packages, (bumpPkg p.id q).downloads =
        if q.id = p.id then q.downloads + 1 else q.downloads) ∧
    (∀ w ∈ st.versions, (bumpVer v.id w).downloads =
        if w.id = v.id then w.downloads + 1 else w.downloads) ∧
    (∀ q ∈ st.packages, 0 ≤ q.downloads → 0 ≤ (bumpPkg p.id q).downloads) ∧
    (∀ w ∈ st.versions, 0 ≤ w.downloads → 0 ≤ (bumpVer v.id w).downloads) := by
  have hdata : (pkg_name ++ "-" ++ vers ++ ".tar.gz").data =
      pkg_name.data ++ ('-' :: (vers.data ++ ".tar.gz".data)) := by
    simp [List.append_assoc]
  have hlen : (pkg_name ++ "-" ++ vers ++ ".tar.gz").length =
      pkg_name.length + 1 + vers.length + 7 := by
    simp [String.length_append]
    rfl
  refine ⟨?_, ?_, ?_, ?_, ?_⟩
  · have hpre : pkg_name.data.isPrefixOf (pkg_name ++ "-" ++ vers ++ ".tar.gz").data =
        true := by
      rw [List.isPrefixOf_iff_prefix, hdata]
      exact ⟨'-' :: (vers.data ++ ".tar.gz".data), rfl⟩
    have hsuf : ".tar.gz".data.isSuffixOf (pkg_name ++ "-" ++ vers ++ ".tar.gz").data =
        true := by
      rw [List.isSuffixOf_iff_suffix, hdata]
      exact ⟨pkg_name.data ++ '-' :: vers.data, by simp⟩
    have hcond : (!(pkg_name.data.isPrefixOf (pkg_name ++ "-" ++ vers ++ ".tar.gz").data) ||
        !(".tar.gz".data.isSuffixOf (pkg_name ++ "-" ++ vers ++ ".tar.gz").data)) = false := by
      rw [hpre, hsuf]
      rfl
    have hg2 : ¬(pkg_name.length + 1 > (pkg_name ++ "-" ++ vers ++ ".tar.gz").length - 7) := by
      rw [hlen]
      omega
    have hversion : (⟨((pkg_name ++ "-" ++ vers ++ ".tar.gz").data.drop
          (pkg_name.length + 1)).take
          ((pkg_name ++ "-" ++ vers ++ ".tar.gz").length - 7 - (pkg_name.length + 1))⟩ :
          String) = vers := by
      have hd : (pkg_name ++ "-" ++ vers ++ ".tar.gz").data.drop (pkg_name.length + 1) =
          vers.data ++ ".tar.gz".data := by
        rw [hdata, show pkg_name.data ++ ('-' :: (vers.data ++ ".tar.gz".data)) =
          (pkg_name.data ++ ['-']) ++ (vers.data ++ ".tar.gz".data) by simp]
        exact List.drop_left' (by rw [List.length_append]; rfl)
      have hc : (pkg_name ++ "-" ++ vers ++ ".tar.gz").length - 7 - (pkg_name.length + 1) =
          vers.data.length := by
        rw [hlen]
        have : vers.length = vers.data.length := rfl
        omega
      rw [hd, hc, List.take_left]
    unfold download
    rw [hcond]
    simp only [Bool.false_eq_true, if_false, if_neg hg2, hversion, hjoin,
      Bool.not_true, ite_false]
  · intro q _
    unfold bumpPkg
    by_cases h : q.id = p.id <;> simp [h]
  · intro w _
    unfold bumpVer
    by_cases h : w.id = v.id <;> simp [h]
  · intro q _ hq
    unfold bumpPkg
    by_cases h : q.id = p.id <;> simp [h] <;> omega
  · intro w _ hw
    unfold bumpVer
    by_cases h : w.id = v.id <;> simp [h] <;> omega

/-- Witness for C9's amended theorem at the concrete store `stFoo`. -/
theorem download_counters_witness :
    joinFind stFoo "foo" "1.0.0" = some (pkgFoo, verFoo) ∧
    download stFoo "foo" ("foo" ++ "-" ++ "1.0.0" ++ ".tar.gz") "blobhost" false
        true true true =
      some ({ stFoo with
                packages := stFoo.packages.map (bumpPkg pkgFoo.id),
                versions := stFoo.versions.map (bumpVer verFoo.id),
                total_downloads := stFoo.total_downloads + 1 },
            Except.ok (if false then
              DlResponse.jsonUrl ("https://" ++ "blobhost" ++ "/pkg/" ++ "foo" ++ "/" ++
                "foo" ++ "-" ++ "1.0.0" ++ ".tar.gz")
            else
              DlResponse.redirect ("https://" ++ "blobhost" ++ "/pkg/" ++ "foo" ++ "/" ++
                "foo" ++ "-" ++ "1.0.0" ++ ".tar.gz"))) :=
  ⟨by decide,
   (download_counters stFoo "foo" "1.0.0" "blobhost" false pkgFoo verFoo (by decide)).1⟩

/-! ## When does `encode_many` succeed?

The `unwrap` in the encode loop succeeds exactly when every package of the
batch finds its map entry: the batch's ids must be distinct (`pop` removes
the entry it returns) and every package must have at least one version row
(otherwise no entry was ever created).  These lemmas feed the `index`
claims. -/

/-- The keys of the association map. -/
def vmapKeys (m : VMap) : List Int := m.map (fun e => e.1)

/-- Pushing onto the map adds (at most) the pushed key. -/
theorem mem_vmapKeys_push (m : VMap) (k v k' : Int) :
    k' ∈ vmapKeys (vmapPush m k v) ↔ k' ∈ vmapKeys m ∨ k' = k := by
  induction m with
  | nil => simp [vmapPush, vmapKeys]
  | cons e rest ih =>
    obtain ⟨k1, vs1⟩ := e
    unfold vmapPush
    by_cases h : k1 = k
    · rw [if_pos h]
      subst h
      simp [vmapKeys]
      tauto
    · rw [if_neg h]
      simp only [vmapKeys, List.map_cons, List.mem_cons] at ih ⊢
      rw [or_assoc] at *
      tauto

/-- A key with a version row in the fetched set and in the batch ids ends up
in the built map. -/
theorem mem_vmapKeys_build (versions : List Version) (pkgids : List Int) (k : Int) :
    ∀ (m : VMap),
      (k ∈ vmapKeys m ∨ ∃ v ∈ versions, v.package_id = k ∧ k ∈ pkgids) →
      k ∈ vmapKeys (versions.foldl
        (fun m v => if v.package_id ∈ pkgids then vmapPush m v.package_id v.id else m)
        m) := by
  induction versions with
  | nil =>
    intro m h
    simpa using h.resolve_right (by simp)
  | cons v rest ih =>
    intro m h
    rw [List.foldl_cons]
    apply ih
    rcases h with h | ⟨u, hu, hpid, hin⟩
    · left
      by_cases hv : v.package_id ∈ pkgids
      · rw [if_pos hv, mem_vmapKeys_push]
        exact Or.inl h
      · rwa [if_neg hv]
    · rcases List.mem_cons.mp hu with rfl | hu'
      · left
        rw [if_pos (hpid ▸ hin), mem_vmapKeys_push]
        exact Or.inr hpid.symm
      · exact Or.inr ⟨u, hu', hpid, hin⟩

/-- Popping a present key succeeds, and every other present key stays. -/
theorem vmapPop_of_mem (m : VMap) (k : Int) (hk : k ∈ vmapKeys m) :
    ∃ vs m', vmapPop m k = some (vs, m') ∧
      ∀ k' ∈ vmapKeys m, k' ≠ k → k' ∈ vmapKeys m' := by
  induction m with
  | nil => simp [vmapKeys] at hk
  | cons e rest ih =>
    obtain ⟨k1, vs1⟩ := e
    by_cases h : k1 = k
    · refine ⟨vs1, rest, ?_, ?_⟩
      · unfold vmapPop
        rw [if_pos h]
      · intro k' hk' hne
        subst h
        rcases List.mem_cons.mp hk' with h1 | h1
        · exact absurd h1 hne
        · exact h1
    · have hk2 : k ∈ vmapKeys rest := by
        rcases List.mem_cons.mp hk with h1 | h1
        · exact absurd h1.symm h
        · exact h1
      obtain ⟨vs, m', hpop, hkeep⟩ := ih hk2
      refine ⟨vs, (k1, vs1) :: m', ?_, ?_⟩
      · unfold vmapPop
        rw [if_neg h, hpop]
      · intro k' hk' hne
        rcases List.mem_cons.mp hk' with h1 | h1
        · exact List.mem_cons.mpr (Or.inl h1)
        · exact List.mem_cons.mpr (Or.inr (hkeep k' h1 hne))

/-- The encode loop succeeds on a batch with distinct ids that all have a
map entry, producing one record per package in order with the same name. -/
theorem encodeLoop_ok (pkgs : List Package) :
    ∀ (m : VMap),
      (pkgs.map (fun p => p.id)).Nodup →
      (∀ p ∈ pkgs, p.id ∈ vmapKeys m) →
      ∃ out, encodeLoop m pkgs = some out ∧
        out.map (fun e => e.name) = pkgs.map (fun p => p.name) ∧
        out.length = pkgs.length := by
  induction pkgs with
  | nil => exact fun m _ _ => ⟨[], rfl, rfl, rfl⟩
  | cons p rest ih =>
    intro m hnd hkeys
    obtain ⟨vs, m', hpop, hkeep⟩ := vmapPop_of_mem m p.id (hkeys p (by simp))
    have hnd' : (rest.map (fun p => p.id)).Nodup := (List.nodup_cons.mp hnd).2
    have hnotmem : p.id ∉ rest.map (fun p => p.id) := (List.nodup_cons.mp hnd).1
    have hkeys' : ∀ q ∈ rest, q.id ∈ vmapKeys m' := by
      intro q hq
      refine hkeep q.id (hkeys q (List.mem_cons.mpr (Or.inr hq))) ?_
      intro hEq
      exact hnotmem (hEq ▸ List.mem_map_of_mem (fun p => p.id) hq)
    obtain ⟨out, hout, hnames, hlen⟩ := ih m' hnd' hkeys'
    refine ⟨Package.encodable p vs :: out, ?_, ?_, ?_⟩
    · unfold encodeLoop
      rw [hpop]
      show (encodeLoop m' rest).map (fun tl => Package.encodable p vs :: tl) =
        some (Package.encodable p vs :: out)
      rw [hout]
      rfl
    · simp only [List.map_cons, List.cons.injEq]
      exact ⟨rfl, hnames⟩
    · simpa using hlen

/-- The encoder `encode_many` succeeds on a batch with distinct ids in which every
package has at least one version row, yielding one record per package, in
order, name for name. -/
theorem encode_many_ok (versions : List Version) (pkgs : List Package)
    (hnd : (pkgs.map (fun p => p.id)).Nodup)
    (hcov : ∀ p ∈ pkgs, ∃ v ∈ versions, v.package_id = p.id) :
    ∃ out, encode_many versions pkgs = some out ∧
      out.map (fun e => e.name) = pkgs.map (fun p => p.name) ∧
      out.length = pkgs.length := by
  apply encodeLoop_ok pkgs _ hnd
  intro p hp
  apply mem_vmapKeys_build
  right
  obtain ⟨v, hv, hvp⟩ := hcov p hp
  exact ⟨v, hv, hvp, List.mem_map_of_mem (fun p => p.id) hp⟩

/-! ## Characterizing the `LIKE` patterns built by `index` -/

/-- The empty tail always witnesses `%`. -/
theorem tails_any_isEmpty (l : List Char) :
    l.tails.any (fun t => t.isEmpty) = true := by
  induction l with
  | nil => rfl
  | cons a l ih => simp [ih]

/-- The pattern `'%'` matches every name. -/
theorem likeMatch_percent (s : List Char) : likeMatch ['%'] s = true := by
  unfold likeMatch
  rw [if_pos rfl]
  have : (fun t => likeMatch [] t) = (fun t : List Char => t.isEmpty) := by
    funext t
    unfold likeMatch
    rfl
  rw [this]
  exact tails_any_isEmpty s

/-- The pattern `'<c>%'` (for a non-wildcard `c`) matches exactly the names
whose first character is `c`. -/
theorem likeMatch_single_char (c : Char) (hc1 : c ≠ '%') (hc2 : c ≠ '_')
    (s : List Char) : likeMatch [c, '%'] s = (s.head? == some c) := by
  match s with
  | [] =>
    unfold likeMatch
    rw [if_neg hc1]
    rfl
  | a :: s' =>
    unfold likeMatch
    rw [if_neg hc1]
    show ((decide (c = '_') || decide (c = a)) && likeMatch ['%'] s') =
      ((a :: s').head? == some c)
    rw [likeMatch_percent]
    by_cases h : c = a
    · subst h
      simp
    · simp [h, hc2, Ne.symm h]

/-! ## C3 — pagination of `index` -/

/-- C3 (counterexample to the claim as stated): the request `page = 1`,
`per_page = 10` over a store whose single package `foo` has no version rows
(the accepted artifact of a failed first publish).  The claim's second half
promises `min(per_page, remaining) = 1` returned package; the code instead
faults in `encode_many` (`unwrap` of a missing map entry) and returns
nothing. -/
theorem index_versionless_faults :
    index stNoVer (some 1) (some 10) none = none ∧
    min (10:Int).toNat stNoVer.packages.length = 1 := ⟨rfl, rfl⟩

/-- C3 (amended): `per_page > 100` fails with the `InvalidRequest` error for
every store and every other parameter (so before any store access); and for
`per_page ∈ [1,100]`, `page ≥ 1`, the returned page — provided the batch
encoder can succeed, i.e. package ids are distinct and every matching
package has at least one version row (the versionless fault is claim C1's
bug) — has exactly `min(per_page, matching-count − offset)` packages, with
`offset = (page−1)·per_page`. -/
theorem index_pagination (st : Store) (page perPage : Int) (letter : Option String)
    (pat : List Char)
    (hpage : 1 ≤ page) (hpp1 : 1 ≤ perPage) (hpp100 : perPage ≤ 100)
    (hpat : letterPattern letter = some pat)
    (hnd : (st.packages.map (fun p => p.id)).Nodup)
    (hcov : ∀ p ∈ st.packages, ∃ v ∈ st.versions, v.package_id = p.id) :
    (∀ (st2 : Store) (page2 : Option Int) (pp : Int) (l2 : Option String),
        100 < pp → index st2 page2 (some pp) l2 =
          some (Except.error
            (ApiError.invalidRequest "cannot request more than 100 packages"))) ∧
    ∃ enc,
      index st (some page) (some perPage) letter =
        some (Except.ok (enc,
          ((st.packages.filter (fun p => likeMatch pat p.name.data)).length : Int))) ∧
      enc.length = min perPage.toNat
        ((st.packages.filter (fun p => likeMatch pat p.name.data)).length -
          ((page - 1) * perPage).toNat) := by
  constructor
  · intro st2 page2 pp l2 hpp
    unfold index
    simp [hpp]
  · have hsub : (((st.packages.filter (fun p => likeMatch pat p.name.data)).drop
        ((page - 1) * perPage).toNat).take perPage.toNat).Sublist st.packages :=
      ((List.take_sublist _ _).trans (List.drop_sublist _ _)).trans
        (List.filter_sublist _)
    obtain ⟨out, hout, hnames, hlen⟩ := encode_many_ok st.versions
      (((st.packages.filter (fun p => likeMatch pat p.name.data)).drop
          ((page - 1) * perPage).toNat).take perPage.toNat)
      (List.Nodup.sublist (hsub.map (fun p => p.id)) hnd)
      (fun p hp => hcov p (hsub.subset hp))
    have hA : ¬(perPage > 100) := by omega
    have hoffnn : 0 ≤ (page - 1) * perPage :=
      mul_nonneg (by omega) (by omega)
    have hguard : ¬((decide (perPage < 0) ||
        decide ((page - 1) * perPage < 0)) = true) := by
      rw [decide_eq_false (by omega : ¬(perPage < 0)),
        decide_eq_false (not_lt.mpr hoffnn)]
      simp
    refine ⟨out, ?_, ?_⟩
    · unfold index
      simp only [Option.getD_some, if_neg hA, hpat, if_neg hguard, hout]
    · rw [hlen, List.length_take, List.length_drop]

/-- Witness for C3's amended theorem at the concrete store `stFoo`. -/
theorem index_pagination_witness :
    (1:Int) ≤ 1 ∧ (1:Int) ≤ 10 ∧ (10:Int) ≤ 100 ∧
    letterPattern none = some ['%'] ∧
    (stFoo.packages.map (fun p => p.id)).Nodup ∧
    (∀ p ∈ stFoo.packages, ∃ v ∈ stFoo.versions, v.package_id = p.id) ∧
    (∃ enc,
      index stFoo (some 1) (some 10) none =
        some (Except.ok (enc,
          ((stFoo.packages.filter (fun p => likeMatch ['%'] p.name.data)).length : Int))) ∧
      enc.length = min (10:Int).toNat
        ((stFoo.packages.filter (fun p => likeMatch ['%'] p.name.data)).length -
          (((1:Int) - 1) * 10).toNat)) :=
  ⟨by decide, by decide, by decide, rfl, by decide, by decide,
   (index_pagination stFoo 1 10 none ['%'] (by decide) (by decide) (by decide) rfl
      (by decide) (by decide)).2⟩

/-! ## C4 — the `letter` filter -/

/-- C4 (counterexample to the claim as stated): listing with prefix argument
`"ab"` over a store holding the package `ax`.  The claim says the page holds
exactly the packages with `"ab"` as a (case-insensitive) leading substring —
none here — and that `total_count` counts the same filter — zero here.  The
code keys the filter on the first character only (`'a'`), so it returns the
`ax` record and a total of 1. -/
theorem index_prefix_counterexample :
    index stAx (some 1) (some 10) (some "ab") =
      some (Except.ok ([Package.encodable pkgAx [verAx.id]], 1)) ∧
    "ab".data.isPrefixOf "ax".data = false := ⟨rfl, by decide⟩

/-- C4 (amended): the `letter` filter of `index` keys on the **first
character only** of the prefix argument, lower-cased: under the same
encoder-success provisos as C3 (distinct ids, no versionless matching
package), and for a first character that is not a SQL `LIKE` wildcard, the
returned page consists name-for-name of the `LIMIT/OFFSET` slice of exactly
the packages whose name starts with that lower-cased first character, and
`total_count` counts all packages of that same filter, independent of the
slice.  (An absent `letter` matches all — C3's theorem with pattern `'%'`;
an empty `letter` string faults on `char_at(0)`.) -/
theorem index_letter_first_char (st : Store) (page perPage : Int) (s : String)
    (c : Char) (cs : List Char)
    (hs : s.data = c :: cs)
    (hc1 : c.toLower ≠ '%') (hc2 : c.toLower ≠ '_')
    (hpage : 1 ≤ page) (hpp1 : 1 ≤ perPage) (hpp100 : perPage ≤ 100)
    (hnd : (st.packages.map (fun p => p.id)).Nodup)
    (hcov : ∀ p ∈ st.packages, ∃ v ∈ st.versions, v.package_id = p.id) :
    ∃ enc,
      index st (some page) (some perPage) (some s) =
        some (Except.ok (enc,
          ((st.packages.filter
              (fun p => p.name.data.head? == some c.toLower)).length : Int))) ∧
      enc.map (fun e => e.name) =
        (((st.packages.filter (fun p => p.name.data.head? == some c.toLower)).drop
            ((page - 1) * perPage).toNat).take perPage.toNat).map
          (fun p => p.name) := by
  have hpat : letterPattern (some s) = some [c.toLower, '%'] := by
    unfold letterPattern
    show (match s.data with
          | [] => none
          | c :: _ => some [c.toLower, '%']) = some [c.toLower, '%']
    rw [hs]
  have hfilter : st.packages.filter (fun p => likeMatch [c.toLower, '%'] p.name.data) =
      st.packages.filter (fun p => p.name.data.head? == some c.toLower) :=
    List.filter_congr (fun p _ => likeMatch_single_char c.toLower hc1 hc2 p.name.data)
  have hsub : (((st.packages.filter
        (fun p => likeMatch [c.toLower, '%'] p.name.data)).drop
        ((page - 1) * perPage).toNat).take perPage.toNat).Sublist st.packages :=
    ((List.take_sublist _ _).trans (List.drop_sublist _ _)).trans
      (List.filter_sublist _)
  obtain ⟨out, hout, hnames, hlen⟩ := encode_many_ok st.versions
    (((st.packages.filter (fun p => likeMatch [c.toLower, '%'] p.name.data)).drop
        ((page - 1) * perPage).toNat).take perPage.toNat)
    (List.Nodup.sublist (hsub.map (fun p => p.id)) hnd)
    (fun p hp => hcov p (hsub.subset hp))
  have hA : ¬(perPage > 100) := by omega
  have hguard : ¬((decide (perPage < 0) ||
      decide ((page - 1) * perPage < 0)) = true) := by
    rw [decide_eq_false (by omega : ¬(perPage < 0)),
      decide_eq_false (not_lt.mpr (mul_nonneg (by omega) (by omega) :
        (0:Int) ≤ (page - 1) * perPage))]
    simp
  refine ⟨out, ?_, ?_⟩
  · unfold index
    simp only [Option.getD_some, if_neg hA, hpat, if_neg hguard, hout]
    rw [hfilter]
  · rw [hnames, hfilter]

/-- Witness for C4's amended theorem: prefix argument `"Ab"` over `stAx`
selects exactly the packages whose names start with `'a'`. -/
theorem index_letter_first_char_witness :
    "Ab".data = 'A' :: ['b'] ∧
    'A'.toLower ≠ '%' ∧ 'A'.toLower ≠ '_' ∧
    (∃ enc,
      index stAx (some 1) (some 10) (some "Ab") =
        some (Except.ok (enc,
          ((stAx.packages.filter
              (fun p => p.name.data.head? == some 'A'.toLower)).length : Int))) ∧
      enc.map (fun e => e.name) =
        (((stAx.packages.filter
            (fun p => p.name.data.head? == some 'A'.toLower)).drop
            (((1:Int) - 1) * 10).toNat).take (10:Int).toNat).map (fun p => p.name)) :=
  ⟨rfl, by decide, by decide,
   index_letter_first_char stAx 1 10 "Ab" 'A' ['b'] rfl (by decide) (by decide)
     (by decide) (by decide) (by decide) (by decide) (by decide)⟩

end CratesIo
